import Mathlib

/-!
Verification development for the cryptoR repository (src/data_collect.py,
src/utils.py): a shallow embedding of `CryptoSymbol` and `symbol_price_hist`
together with theorems settling the specification claims.

Modelling conventions:
* Python exceptions become an explicit error type `PyError`; fallible code
  returns `Except PyError _`.
* The HTTP transport is an oracle `Api : Request -> HttpResp`; the list of
  requests actually issued is threaded through and returned, so "zero network
  calls" is the statement that this list is empty.
* pandas DataFrames are modelled by `DF`: an ordered list of column names plus
  rows, each row being an index key together with an association list of cells
  (an absent binding is a null/NaN cell).  The outer-join, set_index, rename
  and to_datetime collaborator primitives are modelled on this structure.
-/

set_option autoImplicit false

namespace CryptoR

/-- Cell values: wire integers, structured timestamps (produced by the
to_datetime conversion from epoch seconds), strings, and null/NaN. -/
inductive Val where
  | int (n : Int)
  | ts (n : Int)
  | str (s : String)
  | null
  deriving DecidableEq, Repr

/-- A row is an association list from column name to cell value; a missing
binding is a null cell. -/
abbrev Row := List (String × Val)

/-- Errors raised by the Python code, by kind. -/
inductive PyError where
  | typeError (msg : String)
  | valueError (msg : String)
  | httpError (status : Nat)
  | keyError (key : String)
  | indexError
  deriving DecidableEq, Repr

/-- Representation of a crypto currency trading symbol (src/data_collect.py,
class CryptoSymbol): `symbol` is the base currency, `pair` the quote. -/
structure CryptoSymbol where
  symbol : String
  pair : String
  deriving DecidableEq, Repr

/-- Python single-character `str.split` on a list of characters:
`"".split(c) = [""]`, and each occurrence of the separator starts a new
(possibly empty) chunk.  This is the semantics of `s.split("/")` used by
`CryptoSymbol.from_string`. -/
def splitCh (sep : Char) : List Char → List (List Char)
  | [] => [[]]
  | c :: cs =>
    if c = sep then [] :: splitCh sep cs
    else
      match splitCh sep cs with
      | [] => [[c]]
      | r :: rs => (c :: r) :: rs

/-- Python `s.split("/")` on strings. -/
def pySplit (sep : Char) (s : String) : List String :=
  (splitCh sep s.data).map String.mk

/-- Embedding of `CryptoSymbol.from_string` (src/data_collect.py lines 22-29).
The source unpacks `symbol, pair = symbol_pair_str.split("/")`; when the split
does not yield exactly two parts the `except` block executes
`raise e("String format must be ...")` where `e` is the caught ValueError
INSTANCE — calling an exception instance raises
`TypeError: 'ValueError' object is not callable`, so that is the error this
path actually produces. -/
def from_string (s : String) : Except PyError CryptoSymbol :=
  match pySplit '/' s with
  | [a, b] => .ok ⟨a, b⟩
  | _ => .error (.typeError "\x27ValueError\x27 object is not callable")

/-- Embedding of `CryptoSymbol.to_string` (src/data_collect.py lines 31-33):
`f"{self.symbol}/{self.pair}"`. -/
def to_string (c : CryptoSymbol) : String :=
  c.symbol ++ "/" ++ c.pair

/-- Rejoining the chunks with the separator recovers the original list. -/
def joinWith (sep : Char) : List (List Char) → List Char
  | [] => []
  | [x] => x
  | x :: xs => x ++ sep :: joinWith sep xs

/-- A DataFrame: ordered column labels plus rows, each row an index key with
its cells.  Before `set_index` the keys are the default integer RangeIndex. -/
structure DF where
  cols : List String
  rows : List (Val × Row)
  deriving DecidableEq, Repr

/-- Cell lookup inside one row; `none` is a null cell. -/
def rowGet (r : Row) (c : String) : Option Val :=
  (r.find? (fun p => p.1 = c)).map (fun p => p.2)

/-- Assignment to an existing column of a row (pandas column assignment;
bindings for other columns are kept). -/
def rowSet (r : Row) (c : String) (v : Val) : Row :=
  r.map (fun p => if p.1 = c then (p.1, v) else p)

/-- The index keys of a DataFrame, in row order. -/
def idxKeys (df : DF) : List Val :=
  df.rows.map (fun kr => kr.1)

/-- Row lookup by index key (first matching row). -/
def dfGetRow (df : DF) (k : Val) : Option Row :=
  (df.rows.find? (fun kr => kr.1 = k)).map (fun kr => kr.2)

/-- Column labels of `pd.DataFrame(records)`: union of the records\x27 keys in
order of first appearance. -/
def dfColsOf (records : List Row) : List String :=
  records.foldl (fun acc r => r.foldl
    (fun a p => if p.1 ∈ a then a else a ++ [p.1]) acc) []

/-- Construction of `pd.DataFrame(records)` from the decoded JSON records:
default integer RangeIndex, cells as given. -/
def mkDataFrame (records : List Row) : DF :=
  ⟨dfColsOf records, (records.enum).map (fun ir => (Val.int ir.1, ir.2))⟩

/-- The `pd.to_datetime(column, unit="s")` conversion on one cell: epoch-second
integers become structured timestamps; already-converted timestamps (and
anything non-numeric) pass through unchanged. -/
def toDatetime : Val → Val
  | .int n => .ts n
  | v => v

/-- Embedding of `df["time"] = pd.to_datetime(df["time"], unit="s")`: reading
`df["time"]` raises a KeyError when the column is absent; otherwise every cell
of the time column is converted. -/
def convert_time (df : DF) : Except PyError DF :=
  if "time" ∈ df.cols then
    .ok ⟨df.cols, df.rows.map (fun kr =>
      (kr.1, match rowGet kr.2 "time" with
             | some v => rowSet kr.2 "time" (toDatetime v)
             | none => kr.2))⟩
  else .error (.keyError "time")

/-- Embedding of `df.set_index(c, inplace=True)`: the column becomes the row
key and is removed from the regular columns; a KeyError when absent. -/
def set_index (df : DF) (c : String) : Except PyError DF :=
  if c ∈ df.cols then
    .ok ⟨df.cols.filter (fun x => x ≠ c),
         df.rows.map (fun kr =>
           (((rowGet kr.2 c).getD Val.null),
            kr.2.filter (fun p => p.1 ≠ c)))⟩
  else .error (.keyError c)

/-- Embedding of the merge-branch rename
`{col: f"{sym_str}_{col}" for col in columns}`: every column label (and the
corresponding cell bindings) gets the symbol string and an underscore put in
front. -/
def rename_cols (df : DF) (symStr : String) : DF :=
  ⟨df.cols.map (fun c => symStr ++ "_" ++ c),
   df.rows.map (fun kr =>
     (kr.1, kr.2.map (fun p => (symStr ++ "_" ++ p.1, p.2))))⟩

/-- Embedding of `pd.merge(d1, d2, left_index=True, right_index=True,
how="outer")` as the spec\x27s tabular-join collaborator primitive: columns are
concatenated, the row set is the union of the index keys, and a key missing
on one side leaves that side\x27s cells absent (null). -/
def mergeOuter (d1 d2 : DF) : DF :=
  ⟨d1.cols ++ d2.cols,
   d1.rows.map (fun kr => (kr.1, kr.2 ++ (dfGetRow d2 kr.1).getD []))
   ++ d2.rows.filter (fun kr => kr.1 ∉ idxKeys d1)⟩

/-- A GET request as assembled by `_single_symbol_price_hist`: endpoint URL
and the query parameters `fsym`, `tsym`, `limit` and optional `e`. -/
structure Request where
  url : String
  fsym : String
  tsym : String
  limit : Int
  e : Option String
  deriving DecidableEq, Repr

/-- Decoded JSON body of an upstream response:
`{"Response": ..., "Message": ..., "Data": {"Data": [records]}}`. -/
structure ApiBody where
  response : String
  message : String
  records : List Row
  deriving DecidableEq, Repr

/-- An HTTP response: transport status code plus decoded JSON body. -/
structure HttpResp where
  status : Nat
  body : ApiBody
  deriving DecidableEq, Repr

/-- The HTTP transport oracle: a fixed assignment of responses to requests. -/
def Api : Type := Request → HttpResp

/-- Endpoint resolution from the `unit` parameter (the dict at lines 60-64),
`None` outside the three-way mapping. -/
def histo_url (unit : String) : Option String :=
  if unit = "minute" then
    some "https://min-api.cryptocompare.com/data/v2/histominute"
  else if unit = "hour" then
    some "https://min-api.cryptocompare.com/data/v2/histohour"
  else if unit = "day" then
    some "https://min-api.cryptocompare.com/data/v2/histoday"
  else none

/-- Request parameters (lines 69-75).  `if exchange:` is Python truthiness, so
an empty exchange string is dropped exactly like `None`. -/
def mkRequest (url : String) (sym : CryptoSymbol) (limit : Int)
    (exchange : Option String) : Request :=
  ⟨url, sym.symbol, sym.pair, limit,
   match exchange with
   | some s => if s = "" then none else some s
   | none => none⟩

/-- Message of the ValueError raised for an unrecognized unit (line 66). -/
def invalidUnitMsg : String :=
  "Invalid unit provided. Select from \x27minute\x27, \x27hour\x27 or \x27day\x27."

/-- Embedding of `_single_symbol_price_hist` (lines 58-91), returning the
result together with the list of HTTP requests actually issued.  Order of
failure: unknown unit (ValueError, no request), `raise_for_status` (HTTPError
for status >= 400), non-"Success" body (ValueError with the upstream Message),
then DataFrame construction and time conversion. -/
def _single_symbol_price_hist (api : Api) (limit : Int)
    (exchange : Option String) (unit : String) (sym : CryptoSymbol) :
    Except PyError DF × List Request :=
  match histo_url unit with
  | none =>
    (.error (.valueError invalidUnitMsg), [])
  | some url =>
    let req := mkRequest url sym limit exchange
    let resp := api req
    if 400 ≤ resp.status then
      (.error (.httpError resp.status), [req])
    else if resp.body.response ≠ "Success" then
      (.error (.valueError ("API Error: " ++ resp.body.message)), [req])
    else
      (convert_time (mkDataFrame resp.body.records), [req])

/-- Dictionary lookup (`data[k]`) over the insertion-ordered dict model. -/
def dictGet (d : List (String × DF)) (k : String) : Option DF :=
  (d.find? (fun p => p.1 = k)).map (fun p => p.2)

/-- Dictionary assignment `data[k] = v`: overwrite in place when the key
exists, append otherwise (Python dict insertion-order semantics). -/
def dictInsert (d : List (String × DF)) (k : String) (v : DF) :
    List (String × DF) :=
  if (d.find? (fun p => p.1 = k)).isSome then
    d.map (fun p => if p.1 = k then (k, v) else p)
  else d ++ [(k, v)]

/-- The per-symbol loop body of `symbol_price_hist` (lines 97-111): fetch,
convert the time column again, set the index when `index` is non-empty, and
in the merge case put the symbol-string column renaming in front; the result
is stored under `sym.to_string()`. -/
def fetchLoop (api : Api) (limit : Int) (exchange : Option String)
    (unit : String) (merge : Bool) (index : String) :
    List CryptoSymbol → List (String × DF) → List Request →
    Except PyError (List (String × DF)) × List Request
  | [], data, reqs => (.ok data, reqs)
  | sym :: rest, data, reqs =>
    let symStr := to_string sym
    match _single_symbol_price_hist api limit exchange unit sym with
    | (.error e, r) => (.error e, reqs ++ r)
    | (.ok df, r) =>
      match convert_time df with
      | .error e => (.error e, reqs ++ r)
      | .ok df1 =>
        match (if index ≠ "" then set_index df1 index else .ok df1) with
        | .error e => (.error e, reqs ++ r)
        | .ok df2 =>
          let df3 := if merge then rename_cols df2 symStr else df2
          fetchLoop api limit exchange unit merge index rest
            (dictInsert data symStr df3) (reqs ++ r)

/-- The merge fold of lines 115-120: start from the first symbol\x27s stored
table and outer-join the remaining symbols\x27 stored tables in order; a lookup
of a missing key would be a KeyError. -/
def mergeFold (data : List (String × DF)) :
    List CryptoSymbol → DF → Except PyError DF
  | [], acc => .ok acc
  | s :: rest, acc =>
    match dictGet data (to_string s) with
    | none => .error (.keyError (to_string s))
    | some d => mergeFold data rest (mergeOuter acc d)

/-- Embedding of `symbol_price_hist` (lines 36-132).  The first argument of
the sum is a single `CryptoSymbol` (not Iterable, the else branch); the second
is a list (the Iterable branch).  The returned pair carries the result — a
single DataFrame or the ordered mapping — and the list of HTTP requests
issued. -/
def symbol_price_hist (api : Api) (symbol : CryptoSymbol ⊕ List CryptoSymbol)
    (limit : Int) (exchange : Option String) (unit : String) (merge : Bool)
    (index : String) :
    Except PyError (DF ⊕ List (String × DF)) × List Request :=
  match symbol with
  | .inr syms =>
    match fetchLoop api limit exchange unit merge index syms [] [] with
    | (.error e, reqs) => (.error e, reqs)
    | (.ok data, reqs) =>
      if merge then
        match syms with
        | [] => (.error .indexError, reqs)
        | s0 :: rest =>
          match dictGet data (to_string s0) with
          | none => (.error (.keyError (to_string s0)), reqs)
          | some df0 =>
            match mergeFold data rest df0 with
            | .error e => (.error e, reqs)
            | .ok dfRes => (.ok (.inl dfRes), reqs)
      else (.ok (.inr data), reqs)
  | .inl sym =>
    match _single_symbol_price_hist api limit exchange unit sym with
    | (.error e, r) => (.error e, r)
    | (.ok df, r) =>
      match convert_time df with
      | .error e => (.error e, r)
      | .ok df1 =>
        match (if index ≠ "" then set_index df1 index else .ok df1) with
        | .error e => (.error e, r)
        | .ok df2 => (.ok (.inl df2), r)

/-- The indexed, unprefixed pipeline for one symbol: fetch, second time
conversion, and `set_index` when the index column is non-empty.  This is the
per-symbol table both branches of `symbol_price_hist` produce before any
merge-related renaming. -/
def perSymbol (api : Api) (limit : Int) (exchange : Option String)
    (unit : String) (index : String) (sym : CryptoSymbol) :
    Except PyError DF :=
  match (_single_symbol_price_hist api limit exchange unit sym).1 with
  | .error e => .error e
  | .ok df =>
    match convert_time df with
    | .error e => .error e
    | .ok df1 => if index ≠ "" then set_index df1 index else .ok df1

/-- Boolean success test for results of the embedded fallible operations. -/
def okB {α : Type} : Except PyError α → Bool
  | .ok _ => true
  | .error _ => false

/-- A fixture record with the nine wire fields of the upstream API. -/
def rec9 (t : Int) : Row :=
  [("time", Val.int t), ("high", Val.int 10), ("low", Val.int 1),
   ("open", Val.int 5), ("volumefrom", Val.int 2), ("volumeto", Val.int 3),
   ("close", Val.int 7), ("conversionType", Val.str "direct"),
   ("conversionSymbol", Val.str "")]

/-- A fixture transport: two records per symbol, overlapping timestamp sets
between the BTC side and the other side. -/
def apiW : Api := fun req =>
  if req.fsym = "BTC" then ⟨200, ⟨ "Success" , "", [rec9 1, rec9 2]⟩⟩
  else ⟨200, ⟨ "Success" , "", [rec9 2, rec9 3]⟩⟩

/-- The indexed per-symbol tables the fixture transport produces. -/
def TW (s : CryptoSymbol) : DF :=
  match perSymbol apiW 5 none "day" "time" s with
  | .ok d => d
  | .error _ => ⟨[], []⟩

/-- A transport that always reports an upstream logical error. -/
def apiErrW : Api :=
  fun _ => ⟨200, ⟨ "Error" , "rate limit exceeded", []⟩⟩

/-! ### Theorems -/

theorem splitCh_ne_nil (sep : Char) (l : List Char) : splitCh sep l ≠ [] := by
  cases l with
  | nil => simp [splitCh]
  | cons c cs =>
    simp only [splitCh]
    by_cases h : c = sep
    · simp [h]
    · simp only [h, if_false]
      cases splitCh sep cs <;> simp

theorem splitCh_of_not_mem (sep : Char) (l : List Char) (h : sep ∉ l) :
    splitCh sep l = [l] := by
  induction l with
  | nil => rfl
  | cons c cs ih =>
    simp only [List.mem_cons, not_or] at h
    have hcs : ¬c = sep := fun hc => h.1 hc.symm
    simp only [splitCh, hcs, if_false]
    rw [ih h.2]

theorem splitCh_append_sep (sep : Char) (l₁ l₂ : List Char) (h : sep ∉ l₁) :
    splitCh sep (l₁ ++ sep :: l₂) = l₁ :: splitCh sep l₂ := by
  induction l₁ with
  | nil => simp [splitCh]
  | cons c cs ih =>
    simp only [List.mem_cons, not_or] at h
    have hcs : ¬c = sep := fun hc => h.1 hc.symm
    have hstep : splitCh sep (c :: cs ++ sep :: l₂)
        = match splitCh sep (cs ++ sep :: l₂) with
          | [] => [[c]]
          | r :: rs => (c :: r) :: rs := by
      simp [splitCh, hcs]
    rw [hstep, ih h.2]

theorem splitCh_length (sep : Char) (l : List Char) :
    (splitCh sep l).length = l.count sep + 1 := by
  induction l with
  | nil => simp [splitCh]
  | cons c cs ih =>
    simp only [splitCh]
    by_cases h : c = sep
    · subst h
      simp [List.count_cons, ih]
    · simp only [h, if_false]
      have hne := splitCh_ne_nil sep cs
      cases hsp : splitCh sep cs with
      | nil => exact absurd hsp hne
      | cons r rs =>
        simp only [List.length_cons]
        rw [hsp] at ih
        simp only [List.length_cons] at ih
        simp [List.count_cons, h, ih]

theorem joinWith_splitCh (sep : Char) (l : List Char) :
    joinWith sep (splitCh sep l) = l := by
  induction l with
  | nil => rfl
  | cons c cs ih =>
    simp only [splitCh]
    by_cases h : c = sep
    · subst h
      have hne := splitCh_ne_nil c cs
      cases hsp : splitCh c cs with
      | nil => exact absurd hsp hne
      | cons r rs =>
        rw [hsp] at ih
        simp [joinWith, ← ih]
    · simp only [h, if_false]
      have hne := splitCh_ne_nil sep cs
      cases hsp : splitCh sep cs with
      | nil => exact absurd hsp hne
      | cons r rs =>
        rw [hsp] at ih
        cases rs with
        | nil => simpa [joinWith] using congrArg (c :: ·) ih
        | cons r2 rs2 => simpa [joinWith] using congrArg (c :: ·) ih

/-- Claim C2 (code evaluated at the failing inputs): with no separator or two
separators, `from_string` does fail, but the failure is the TypeError from
calling the caught ValueError instance (`raise e(...)` at line 29), not a
ParseError carrying the message written in the source; with exactly one
separator it succeeds with the verbatim parts. -/
theorem from_string_malformed_behavior :
    from_string "BTCUSD"
        = .error (.typeError "\x27ValueError\x27 object is not callable")
    ∧ from_string "BTC/USD/EXTRA"
        = .error (.typeError "\x27ValueError\x27 object is not callable")
    ∧ from_string "BTC/USD" = .ok ⟨"BTC", "USD"⟩ := by
  refine ⟨?_, ?_, ?_⟩ <;> rfl

/-- Claim C3: for a well-formed string `BASE ++ "/" ++ QUOTE` with non-empty,
separator-free parts, construction succeeds with the verbatim parts and
formatting is its inverse. -/
theorem to_string_from_string_roundtrip (a b : String)
    (ha : a ≠ "") (hb : b ≠ "") (hna : '/' ∉ a.data) (hnb : '/' ∉ b.data) :
    from_string (a ++ "/" ++ b) = .ok ⟨a, b⟩
    ∧ to_string ⟨a, b⟩ = a ++ "/" ++ b := by
  constructor
  · have hdata : (a ++ "/" ++ b).data = a.data ++ '/' :: b.data := by
      simp [String.data_append]
    unfold from_string pySplit
    rw [hdata, splitCh_append_sep _ _ _ hna, splitCh_of_not_mem _ _ hnb]
    rfl
  · rfl

/-- Witness for the round-trip law at the concrete input "BTC/USD". -/
theorem to_string_from_string_roundtrip_witness :
    from_string ( "BTC" ++ "/" ++ "USD" ) = .ok ⟨ "BTC" , "USD" ⟩
    ∧ to_string ⟨ "BTC" , "USD" ⟩ = "BTC" ++ "/" ++ "USD" :=
  to_string_from_string_roundtrip "BTC" "USD" (by decide) (by decide)
    (by decide) (by decide)

/-- Claim C8 counterexample: `from_string "BTC/"` succeeds and produces an
identifier whose quote field is empty, so the non-emptiness invariant claimed
for every SymbolIdentifier is false. -/
theorem from_string_empty_quote :
    from_string "BTC/" = .ok ⟨ "BTC" , "" ⟩ := by
  rfl

/-- Claim C8 as amended: an identifier produced by `from_string` always comes
from a string with exactly one separator, and its fields are the verbatim
parts of that string (so formatting reconstructs the input) — but the parts
may be empty, since the code never checks non-emptiness. -/
theorem from_string_ok_exactly_one_sep (s : String) (c : CryptoSymbol)
    (h : from_string s = .ok c) :
    to_string c = s ∧ s.data.count '/' = 1 := by
  have hj := joinWith_splitCh '/' s.data
  have hl := splitCh_length '/' s.data
  unfold from_string pySplit at h
  cases hsp : splitCh '/' s.data with
  | nil => rw [hsp] at h; simp at h
  | cons r rs =>
    cases rs with
    | nil => rw [hsp] at h; simp at h
    | cons r2 rs2 =>
      cases rs2 with
      | cons r3 rs3 => rw [hsp] at h; simp at h
      | nil =>
        rw [hsp] at h
        simp only [List.map_cons, List.map_nil] at h
        have hc : c = ⟨String.mk r, String.mk r2⟩ := by
          cases h; rfl
        subst hc
        rw [hsp] at hj hl
        constructor
        · apply String.ext
          have : (to_string ⟨String.mk r, String.mk r2⟩).data
              = r ++ '/' :: r2 := by
            simp [to_string, String.data_append]
          rw [this, ← hj]
          rfl
        · simp only [List.length_cons, List.length_nil] at hl
          omega

/-- Witness for the amended C8 law at the concrete input "BTC/USD". -/
theorem from_string_ok_exactly_one_sep_witness :
    to_string ⟨ "BTC" , "USD" ⟩ = "BTC/USD"
    ∧ ( "BTC/USD" : String ).data.count '/' = 1 :=
  from_string_ok_exactly_one_sep "BTC/USD" ⟨ "BTC" , "USD" ⟩ (by rfl)

theorem find?_key_map_pair (l : List (Val × Row)) (g : Val × Row → Row)
    (t : Val) :
    (l.map (fun kr => (kr.1, g kr))).find? (fun kr => kr.1 = t)
      = (l.find? (fun kr => kr.1 = t)).map (fun kr => (kr.1, g kr)) := by
  induction l with
  | nil => rfl
  | cons x xs ih =>
    by_cases h : x.1 = t
    · simp [List.find?_cons, h]
    · simp [List.find?_cons, h, ih]

theorem find?_key_filter (l : List (Val × Row)) (t : Val)
    (q : Val × Row → Bool) (hq : ∀ kr : Val × Row, kr.1 = t → q kr = true) :
    (l.filter q).find? (fun kr => kr.1 = t)
      = l.find? (fun kr => kr.1 = t) := by
  induction l with
  | nil => rfl
  | cons x xs ih =>
    by_cases hx : x.1 = t
    · have hqx : q x = true := hq x hx
      simp [List.filter_cons, hqx, List.find?_cons, hx]
    · cases hqx : q x with
      | false => simp [List.filter_cons, hqx, List.find?_cons, hx, ih]
      | true => simp [List.filter_cons, hqx, List.find?_cons, hx, ih]

theorem dfGetRow_def (df : DF) (t : Val) :
    dfGetRow df t
      = (df.rows.find? (fun kr => kr.1 = t)).map (fun kr => kr.2) := rfl

theorem mergeOuter_rows (a b : DF) :
    (mergeOuter a b).rows
      = a.rows.map (fun kr => (kr.1, kr.2 ++ (dfGetRow b kr.1).getD []))
        ++ b.rows.filter (fun kr => kr.1 ∉ idxKeys a) := rfl

theorem dfGetRow_isSome (df : DF) (t : Val) :
    (dfGetRow df t).isSome = true ↔ t ∈ idxKeys df := by
  rw [dfGetRow_def]
  rw [show (Option.map (fun kr : Val × Row => kr.2)
      (df.rows.find? (fun kr => kr.1 = t))).isSome
      = (df.rows.find? (fun kr => kr.1 = t)).isSome from by
    cases df.rows.find? (fun kr => kr.1 = t) <;> rfl]
  rw [List.find?_isSome]
  constructor
  · rintro ⟨kr, hmem, hk⟩
    simp only [decide_eq_true_eq] at hk
    exact List.mem_map.mpr ⟨kr, hmem, hk⟩
  · intro hmem
    rcases List.mem_map.mp hmem with ⟨kr, hmem2, hk⟩
    exact ⟨kr, hmem2, by simp [hk]⟩

theorem dfGetRow_eq_none_of_not_mem (df : DF) (t : Val)
    (h : t ∉ idxKeys df) : dfGetRow df t = none := by
  cases hr : dfGetRow df t with
  | none => rfl
  | some r =>
    exact absurd ((dfGetRow_isSome df t).mp (by rw [hr]; rfl)) h

theorem mergeOuter_cols (a b : DF) :
    (mergeOuter a b).cols = a.cols ++ b.cols := rfl

theorem idxKeys_mergeOuter (a b : DF) :
    idxKeys (mergeOuter a b)
      = idxKeys a
        ++ (b.rows.filter (fun kr => kr.1 ∉ idxKeys a)).map
            (fun kr => kr.1) := by
  simp only [idxKeys, mergeOuter, List.map_append, List.map_map]
  rfl

theorem mem_idxKeys_mergeOuter (a b : DF) (t : Val) :
    t ∈ idxKeys (mergeOuter a b) ↔ t ∈ idxKeys a ∨ t ∈ idxKeys b := by
  rw [idxKeys_mergeOuter]
  simp only [List.mem_append, List.mem_map, List.mem_filter,
    decide_eq_true_eq]
  constructor
  · rintro (h | ⟨kr, ⟨hmem, hdec⟩, rfl⟩)
    · exact Or.inl h
    · exact Or.inr (by simp only [idxKeys, List.mem_map]; exact ⟨kr, hmem, rfl⟩)
  · rintro (h | h)
    · exact Or.inl h
    · by_cases ha : t ∈ idxKeys a
      · exact Or.inl ha
      · rcases (by simpa only [idxKeys, List.mem_map] using h :
            ∃ kr ∈ b.rows, kr.1 = t) with ⟨kr, hmem, hk⟩
        subst hk
        exact Or.inr ⟨kr, ⟨hmem, ha⟩, rfl⟩

theorem dfGetRow_mergeOuter (a b : DF) (t : Val) :
    dfGetRow (mergeOuter a b) t
      = if t ∈ idxKeys a ∨ t ∈ idxKeys b
        then some ((dfGetRow a t).getD [] ++ (dfGetRow b t).getD [])
        else none := by
  rw [dfGetRow_def (mergeOuter a b) t, mergeOuter_rows, List.find?_append,
    find?_key_map_pair]
  cases hfa : a.rows.find? (fun kr => kr.1 = t) with
  | some kr0 =>
    have hk0 : kr0.1 = t := by
      simpa using List.find?_some hfa
    have hta : t ∈ idxKeys a := by
      rw [← hk0]
      exact List.mem_map.mpr ⟨kr0, List.mem_of_find?_eq_some hfa, rfl⟩
    have hga : dfGetRow a t = some kr0.2 := by
      rw [dfGetRow_def, hfa]
      rfl
    rw [if_pos (Or.inl hta)]
    simp [hga, hk0]
  | none =>
    have hta : t ∉ idxKeys a := by
      intro hmem
      rcases List.mem_map.mp hmem with ⟨kr, hkr, hk⟩
      have := List.find?_eq_none.mp hfa kr hkr
      simp [hk] at this
    have hga : dfGetRow a t = none := by
      rw [dfGetRow_def, hfa]
      rfl
    have hfilter : (b.rows.filter (fun kr => kr.1 ∉ idxKeys a)).find?
        (fun kr => kr.1 = t) = b.rows.find? (fun kr => kr.1 = t) := by
      apply find?_key_filter
      intro kr hk
      subst hk
      simpa using hta
    rw [hfilter]
    cases hfb : b.rows.find? (fun kr => kr.1 = t) with
    | some kr1 =>
      have htb : t ∈ idxKeys b := by
        have hk1 : kr1.1 = t := by simpa using List.find?_some hfb
        rw [← hk1]
        exact List.mem_map.mpr ⟨kr1, List.mem_of_find?_eq_some hfb, rfl⟩
      have hgb : dfGetRow b t = some kr1.2 := by
        rw [dfGetRow_def, hfb]
        rfl
      rw [if_pos (Or.inr htb)]
      simp [hga, hgb]
    | none =>
      have htb : t ∉ idxKeys b := by
        intro hmem
        rcases List.mem_map.mp hmem with ⟨kr, hkr, hk⟩
        have := List.find?_eq_none.mp hfb kr hkr
        simp [hk] at this
      rw [if_neg (by tauto)]
      simp

theorem getD_dfGetRow_mergeOuter (a b : DF) (t : Val) :
    (dfGetRow (mergeOuter a b) t).getD []
      = (dfGetRow a t).getD [] ++ (dfGetRow b t).getD [] := by
  rw [dfGetRow_mergeOuter]
  by_cases h : t ∈ idxKeys a ∨ t ∈ idxKeys b
  · rw [if_pos h]
    rfl
  · rw [if_neg h]
    push_neg at h
    rw [dfGetRow_eq_none_of_not_mem a t h.1, dfGetRow_eq_none_of_not_mem b t h.2]
    rfl

theorem foldl_mergeOuter_cols (ds : List DF) :
    ∀ acc : DF, (List.foldl mergeOuter acc ds).cols
      = acc.cols ++ (ds.map DF.cols).flatten := by
  induction ds with
  | nil =>
    intro acc
    simp
  | cons d ds ih =>
    intro acc
    rw [List.foldl_cons, ih (mergeOuter acc d), mergeOuter_cols]
    simp [List.append_assoc]

theorem mem_idxKeys_foldl_mergeOuter (ds : List DF) :
    ∀ (acc : DF) (t : Val),
    t ∈ idxKeys (List.foldl mergeOuter acc ds)
      ↔ t ∈ idxKeys acc ∨ ∃ d ∈ ds, t ∈ idxKeys d := by
  induction ds with
  | nil =>
    intro acc t
    simp
  | cons d ds ih =>
    intro acc t
    rw [List.foldl_cons, ih (mergeOuter acc d) t, mem_idxKeys_mergeOuter]
    simp only [List.mem_cons, exists_eq_or_imp]
    tauto

theorem dfGetRow_foldl_mergeOuter (ds : List DF) :
    ∀ (acc : DF) (t : Val),
    dfGetRow (List.foldl mergeOuter acc ds) t
      = if t ∈ idxKeys acc ∨ ∃ d ∈ ds, t ∈ idxKeys d
        then some ((dfGetRow acc t).getD []
            ++ (ds.map (fun d => (dfGetRow d t).getD [])).flatten)
        else none := by
  induction ds with
  | nil =>
    intro acc t
    by_cases h : t ∈ idxKeys acc
    · rw [if_pos (by simpa using h)]
      have hs := (dfGetRow_isSome acc t).mpr h
      cases hr : dfGetRow acc t with
      | none => rw [hr] at hs; cases hs
      | some r => simp [hr]
    · rw [if_neg (by simpa using h), List.foldl_nil]
      exact dfGetRow_eq_none_of_not_mem acc t h
  | cons d ds ih =>
    intro acc t
    rw [List.foldl_cons, ih (mergeOuter acc d) t]
    have hcond : (t ∈ idxKeys (mergeOuter acc d) ∨ ∃ x ∈ ds, t ∈ idxKeys x)
        ↔ (t ∈ idxKeys acc ∨ ∃ x ∈ d :: ds, t ∈ idxKeys x) := by
      rw [mem_idxKeys_mergeOuter]
      simp only [List.mem_cons, exists_eq_or_imp]
      tauto
    by_cases h : t ∈ idxKeys acc ∨ ∃ x ∈ d :: ds, t ∈ idxKeys x
    · rw [if_pos (hcond.mpr h), if_pos h, getD_dfGetRow_mergeOuter]
      simp [List.append_assoc]
    · rw [if_neg (fun hh => h (hcond.mp hh)), if_neg h]

theorem rename_cols_cols (df : DF) (p : String) :
    (rename_cols df p).cols = df.cols.map (fun c => p ++ "_" ++ c) := rfl

theorem idxKeys_rename_cols (df : DF) (p : String) :
    idxKeys (rename_cols df p) = idxKeys df := by
  simp only [idxKeys, rename_cols, List.map_map]
  rfl

theorem dictInsert_fresh (d : List (String × DF)) (k : String) (v : DF)
    (h : d.find? (fun p => p.1 = k) = none) :
    dictInsert d k v = d ++ [(k, v)] := by
  unfold dictInsert
  rw [h]
  rfl

theorem dictGet_map_of_mem (P : CryptoSymbol → DF) :
    ∀ (syms : List CryptoSymbol) (s : CryptoSymbol),
    (syms.map to_string).Nodup → s ∈ syms →
    dictGet (syms.map (fun x => (to_string x, P x))) (to_string s)
      = some (P s) := by
  intro syms
  induction syms with
  | nil =>
    intro s _ hs
    cases hs
  | cons x xs ih =>
    intro s hnd hs
    simp only [List.map_cons, List.nodup_cons] at hnd
    by_cases hx : to_string x = to_string s
    · rcases List.mem_cons.mp hs with hsx | hmem
      · subst hsx
        simp [dictGet, List.find?_cons, hx]
      · exact absurd (hx ▸ List.mem_map.mpr ⟨s, hmem, rfl⟩) hnd.1
    · rcases List.mem_cons.mp hs with hsx | hmem
      · exact absurd (hsx ▸ rfl) hx
      · have := ih s hnd.2 hmem
        simpa [dictGet, List.find?_cons, hx] using this

theorem fetchLoop_ok_of_perSymbol (api : Api) (limit : Int)
    (exchange : Option String) (unit : String) (merge : Bool) (index : String)
    (T : CryptoSymbol → DF) :
    ∀ (syms : List CryptoSymbol) (data : List (String × DF))
      (reqs : List Request),
    (∀ s ∈ syms, perSymbol api limit exchange unit index s = .ok (T s)) →
    (syms.map to_string).Nodup →
    (∀ s ∈ syms, data.find? (fun p => p.1 = to_string s) = none) →
    ∃ reqs2, fetchLoop api limit exchange unit merge index syms data reqs
      = (.ok (data ++ syms.map (fun s => (to_string s,
          if merge then rename_cols (T s) (to_string s) else T s))), reqs2) := by
  intro syms
  induction syms with
  | nil =>
    intro data reqs _ _ _
    exact ⟨reqs, by simp [fetchLoop]⟩
  | cons sym rest ih =>
    intro data reqs hT hnd hfresh
    have hp : perSymbol api limit exchange unit index sym = .ok (T sym) :=
      hT sym (List.mem_cons_self sym rest)
    simp only [List.map_cons, List.nodup_cons] at hnd
    unfold perSymbol at hp
    unfold fetchLoop
    rcases h1 : _single_symbol_price_hist api limit exchange unit sym with ⟨res, r⟩
    rw [h1] at hp
    dsimp only at hp ⊢
    cases res with
    | error e => cases hp
    | ok df =>
      dsimp only at hp ⊢
      cases hc : convert_time df with
      | error e => rw [hc] at hp; cases hp
      | ok df1 =>
        rw [hc] at hp
        dsimp only at hp ⊢
        rw [hp]
        dsimp only
        rw [dictInsert_fresh data (to_string sym) _
          (hfresh sym (List.mem_cons_self sym rest))]
        have hfresh2 : ∀ s ∈ rest,
            (data ++ [(to_string sym,
              if merge then rename_cols (T sym) (to_string sym)
              else T sym)]).find? (fun p => p.1 = to_string s) = none := by
          intro s hmem
          rw [List.find?_append,
            hfresh s (List.mem_cons_of_mem sym hmem)]
          have hne2 : ¬to_string sym = to_string s := by
            intro hcontra
            exact hnd.1 (hcontra ▸ List.mem_map.mpr ⟨s, hmem, rfl⟩)
          simp [hne2]
        rcases ih (data ++ [(to_string sym,
            if merge then rename_cols (T sym) (to_string sym) else T sym)])
            (reqs ++ r)
            (fun s hmem => hT s (List.mem_cons_of_mem sym hmem))
            hnd.2 hfresh2 with ⟨reqs2, hloop⟩
        refine ⟨reqs2, ?_⟩
        rw [hloop]
        simp

theorem _single_invalid_unit (api : Api) (limit : Int)
    (exchange : Option String) (unit : String) (sym : CryptoSymbol)
    (hurl : histo_url unit = none) :
    _single_symbol_price_hist api limit exchange unit sym
      = (.error (.valueError invalidUnitMsg), []) := by
  unfold _single_symbol_price_hist
  rw [hurl]

/-- Claim C4: for a granularity outside the three-way mapping, the fetch fails
with the configuration ValueError and the request list is empty — zero HTTP
calls — both for a single symbol and for a non-empty collection. -/
theorem invalid_unit_fails_before_network (api : Api)
    (symbol : CryptoSymbol ⊕ List CryptoSymbol) (limit : Int)
    (exchange : Option String) (unit : String) (merge : Bool) (index : String)
    (hu1 : unit ≠ "minute") (hu2 : unit ≠ "hour") (hu3 : unit ≠ "day")
    (hne : symbol ≠ .inr []) :
    symbol_price_hist api symbol limit exchange unit merge index
      = (.error (.valueError invalidUnitMsg), []) := by
  have hurl : histo_url unit = none := by
    simp [histo_url, hu1, hu2, hu3]
  cases symbol with
  | inl sym =>
    unfold symbol_price_hist
    dsimp only
    rw [_single_invalid_unit api limit exchange unit sym hurl]
  | inr syms =>
    cases syms with
    | nil => exact absurd rfl hne
    | cons s rest =>
      unfold symbol_price_hist fetchLoop
      dsimp only
      rw [_single_invalid_unit api limit exchange unit s hurl]
      rfl

/-- Witness for C4 at `granularity="week"` with one symbol. -/
theorem invalid_unit_fails_before_network_witness :
    symbol_price_hist (fun _ => ⟨200, ⟨ "Success" , "", []⟩⟩)
        (.inl ⟨ "BTC" , "USD" ⟩) 2000 none "week" false "time"
      = (.error (.valueError invalidUnitMsg), []) :=
  invalid_unit_fails_before_network _ _ _ _ _ _ _
    (by decide) (by decide) (by decide) (by simp)

/-- Claim C5: a transport-successful response whose body-level Response field
is not "Success" makes the fetch fail with the ValueError carrying the
upstream Message text (the ApiError of the spec taxonomy); no table is
returned, only the error, after the one request issued. -/
theorem api_error_propagates (api : Api) (sym : CryptoSymbol) (limit : Int)
    (exchange : Option String) (unit url index : String) (merge : Bool)
    (hurl : histo_url unit = some url)
    (hok : (api (mkRequest url sym limit exchange)).status < 400)
    (herr : (api (mkRequest url sym limit exchange)).body.response ≠ "Success") :
    symbol_price_hist api (.inl sym) limit exchange unit merge index
      = (.error (.valueError ("API Error: "
          ++ (api (mkRequest url sym limit exchange)).body.message)),
         [mkRequest url sym limit exchange]) := by
  have h1 : ¬ 400 ≤ (api (mkRequest url sym limit exchange)).status :=
    Nat.not_le.mpr hok
  have hs : _single_symbol_price_hist api limit exchange unit sym
      = (.error (.valueError ("API Error: "
          ++ (api (mkRequest url sym limit exchange)).body.message)),
         [mkRequest url sym limit exchange]) := by
    unfold _single_symbol_price_hist
    rw [hurl]
    simp only [if_neg h1, if_pos herr]
  unfold symbol_price_hist
  dsimp only
  rw [hs]

/-- Witness for C5: a 200 response with Response "Error" yields the ApiError
with the upstream message. -/
theorem api_error_propagates_witness :
    symbol_price_hist apiErrW (.inl ⟨ "BTC" , "USD" ⟩) 2000 none "day" false "time"
      = (.error (.valueError ("API Error: "
          ++ (apiErrW (mkRequest
                "https://min-api.cryptocompare.com/data/v2/histoday"
                ⟨ "BTC" , "USD" ⟩ 2000 none)).body.message)),
         [mkRequest "https://min-api.cryptocompare.com/data/v2/histoday"
            ⟨ "BTC" , "USD" ⟩ 2000 none]) :=
  api_error_propagates apiErrW ⟨ "BTC" , "USD" ⟩ 2000 none "day"
    "https://min-api.cryptocompare.com/data/v2/histoday" "time" false
    (by rfl) (by decide) (by decide)

/-- Claim C9: for a single identifier the merge flag has no influence at all
(two-run noninterference over `merge`), and the returned value is exactly the
per-symbol pipeline — time converted, index applied when non-empty — as a
single table. -/
theorem single_symbol_ignores_merge (api : Api) (sym : CryptoSymbol)
    (limit : Int) (exchange : Option String) (unit index : String) :
    symbol_price_hist api (.inl sym) limit exchange unit true index
      = symbol_price_hist api (.inl sym) limit exchange unit false index
    ∧ ∀ merge : Bool,
      (symbol_price_hist api (.inl sym) limit exchange unit merge index).1
        = (perSymbol api limit exchange unit index sym).map Sum.inl := by
  refine ⟨rfl, fun merge => ?_⟩
  unfold symbol_price_hist perSymbol
  dsimp only
  rcases h : _single_symbol_price_hist api limit exchange unit sym with ⟨res, r⟩
  cases res with
  | error e => rfl
  | ok df =>
    dsimp only
    cases hc : convert_time df with
    | error e => rfl
    | ok df1 =>
      dsimp only
      cases hi : (if index ≠ "" then set_index df1 index else Except.ok df1) with
      | error e => rfl
      | ok df2 => rfl

theorem _single_snd_length (api : Api) (limit : Int) (exchange : Option String)
    (unit : String) (sym : CryptoSymbol) :
    (_single_symbol_price_hist api limit exchange unit sym).2.length ≤ 1 := by
  unfold _single_symbol_price_hist
  cases histo_url unit with
  | none => simp
  | some url =>
    dsimp only
    split
    · simp
    · split <;> simp

theorem fetchLoop_snd_length (api : Api) (limit : Int)
    (exchange : Option String) (unit : String) (merge : Bool) (index : String) :
    ∀ (syms : List CryptoSymbol) (data : List (String × DF))
      (reqs : List Request),
    (fetchLoop api limit exchange unit merge index syms data reqs).2.length
      ≤ reqs.length + syms.length := by
  intro syms
  induction syms with
  | nil =>
    intro data reqs
    simp [fetchLoop]
  | cons sym rest ih =>
    intro data reqs
    have hr := _single_snd_length api limit exchange unit sym
    unfold fetchLoop
    rcases h : _single_symbol_price_hist api limit exchange unit sym with ⟨res, r⟩
    rw [h] at hr
    dsimp only at hr
    simp only [List.length_cons]
    cases res with
    | error e =>
      dsimp only
      simp only [List.length_append]
      omega
    | ok df =>
      dsimp only
      cases hc : convert_time df with
      | error e =>
        dsimp only
        simp only [List.length_append]
        omega
      | ok df1 =>
        dsimp only
        cases hi : (if index ≠ "" then set_index df1 index
            else Except.ok df1) with
        | error e =>
          dsimp only
          simp only [List.length_append]
          omega
        | ok df2 =>
          dsimp only
          have hx := ih (dictInsert data (to_string sym)
            (if merge = true then rename_cols df2 (to_string sym) else df2))
            (reqs ++ r)
          simp only [List.length_append] at hx
          omega

theorem fetchLoop_fail (api : Api) (limit : Int) (exchange : Option String)
    (unit : String) (merge : Bool) (index : String) :
    ∀ (syms : List CryptoSymbol) (data : List (String × DF))
      (reqs : List Request),
    (∃ s ∈ syms,
      okB (_single_symbol_price_hist api limit exchange unit s).1 = false) →
    okB (fetchLoop api limit exchange unit merge index syms data reqs).1
      = false := by
  intro syms
  induction syms with
  | nil =>
    rintro data reqs ⟨s, hs, hf⟩
    cases hs
  | cons sym rest ih =>
    rintro data reqs ⟨s, hs, hf⟩
    unfold fetchLoop
    rcases h : _single_symbol_price_hist api limit exchange unit sym with ⟨res, r⟩
    cases res with
    | error e => simp [okB]
    | ok df =>
      dsimp only
      cases hc : convert_time df with
      | error e => simp [okB]
      | ok df1 =>
        dsimp only
        cases hi : (if index ≠ "" then set_index df1 index
            else Except.ok df1) with
        | error e => simp [okB]
        | ok df2 =>
          dsimp only
          apply ih
          rcases List.mem_cons.mp hs with hsym | hmem
          · subst hsym
            rw [h] at hf
            simp [okB] at hf
          · exact ⟨s, hmem, hf⟩

/-- Claim C7: if any one symbol of a multi-symbol fetch fails, the whole
operation fails — no partial mapping or table is ever returned — and no error
is retried internally: at most one request per symbol is issued. -/
theorem any_failure_fails_whole (api : Api) (syms : List CryptoSymbol)
    (limit : Int) (exchange : Option String) (unit : String) (merge : Bool)
    (index : String)
    (hfail : ∃ s ∈ syms,
      okB (_single_symbol_price_hist api limit exchange unit s).1 = false) :
    okB (symbol_price_hist api (.inr syms) limit exchange unit merge index).1
      = false
    ∧ (symbol_price_hist api (.inr syms) limit exchange unit merge
        index).2.length ≤ syms.length := by
  have hl := fetchLoop_fail api limit exchange unit merge index syms [] [] hfail
  have hlen := fetchLoop_snd_length api limit exchange unit merge index syms [] []
  unfold symbol_price_hist
  dsimp only
  rcases h : fetchLoop api limit exchange unit merge index syms [] [] with ⟨res, reqs⟩
  rw [h] at hl hlen
  simp only [List.length_nil, Nat.zero_add] at hlen
  cases res with
  | error e => exact ⟨rfl, hlen⟩
  | ok data => simp [okB] at hl

/-- Witness for C7: with a transport that reports an upstream error for every
request, the two-symbol merged fetch fails as a whole. -/
theorem any_failure_fails_whole_witness :
    okB (symbol_price_hist apiErrW
        (.inr [⟨ "BTC" , "USD" ⟩, ⟨ "ETH" , "BTC" ⟩]) 2000 none "day" true
        "time").1 = false
    ∧ (symbol_price_hist apiErrW
        (.inr [⟨ "BTC" , "USD" ⟩, ⟨ "ETH" , "BTC" ⟩]) 2000 none "day" true
        "time").2.length ≤ 2 := by
  have h := any_failure_fails_whole apiErrW
    [⟨ "BTC" , "USD" ⟩, ⟨ "ETH" , "BTC" ⟩] 2000 none "day" true "time"
    (by decide)
  simpa using h

/-- Claim C10: an empty collection with merge=false silently returns the empty
mapping with zero HTTP requests, for every granularity value — in particular
no granularity validation happens, although the spec requires a non-empty
collection. -/
theorem empty_collection_returns_empty_mapping (api : Api) (limit : Int)
    (exchange : Option String) (unit index : String) :
    symbol_price_hist api (.inr []) limit exchange unit false index
      = (.ok (.inr []), []) :=
  rfl

theorem mergeFold_ok (data : List (String × DF)) (P : CryptoSymbol → DF) :
    ∀ (rest : List CryptoSymbol) (acc : DF),
    (∀ s ∈ rest, dictGet data (to_string s) = some (P s)) →
    mergeFold data rest acc
      = .ok (List.foldl mergeOuter acc (rest.map P)) := by
  intro rest
  induction rest with
  | nil =>
    intro acc _
    rfl
  | cons s ss ih =>
    intro acc hget
    unfold mergeFold
    rw [hget s (List.mem_cons_self s ss)]
    dsimp only
    rw [List.map_cons, List.foldl_cons]
    exact ih (mergeOuter acc (P s))
      (fun x hx => hget x (List.mem_cons_of_mem s hx))

/-- Claim C6: a multi-symbol fetch with merge=false returns the mapping that
sends each symbol\x27s string form to its indexed, unprefixed per-symbol table,
with exactly one entry per input symbol in input order.  The symbols\x27 string
forms must be pairwise distinct for "one entry per input symbol" to be
meaningful, since the mapping is keyed by them. -/
theorem no_merge_returns_ordered_mapping (api : Api) (syms : List CryptoSymbol)
    (limit : Int) (exchange : Option String) (unit index : String)
    (T : CryptoSymbol → DF)
    (hidx : index ≠ "")
    (hnd : (syms.map to_string).Nodup)
    (hT : ∀ s ∈ syms, perSymbol api limit exchange unit index s = .ok (T s)) :
    ∃ reqs, symbol_price_hist api (.inr syms) limit exchange unit false index
      = (.ok (.inr (syms.map (fun s => (to_string s, T s)))), reqs) := by
  rcases fetchLoop_ok_of_perSymbol api limit exchange unit false index T syms
    [] [] hT hnd (fun s _ => rfl) with ⟨reqs2, hloop⟩
  have hloop2 : fetchLoop api limit exchange unit false index syms [] []
      = (.ok (syms.map (fun s => (to_string s, T s))), reqs2) := by
    simpa using hloop
  refine ⟨reqs2, ?_⟩
  unfold symbol_price_hist
  dsimp only
  rw [hloop2]
  rfl

/-- Witness for C6 with two symbols and a fixture transport with nine fields
per record: the result maps "BTC/USD" and "ETH/BTC", in order, to their own
indexed tables. -/
theorem no_merge_returns_ordered_mapping_witness :
    ( "time" : String) ≠ ""
    ∧ (([⟨ "BTC" , "USD" ⟩, ⟨ "ETH" , "BTC" ⟩] : List CryptoSymbol).map
        to_string).Nodup
    ∧ (∀ s ∈ ([⟨ "BTC" , "USD" ⟩, ⟨ "ETH" , "BTC" ⟩] : List CryptoSymbol),
        perSymbol apiW 5 none "day" "time" s = .ok (TW s))
    ∧ ∃ reqs, symbol_price_hist apiW
          (.inr [⟨ "BTC" , "USD" ⟩, ⟨ "ETH" , "BTC" ⟩]) 5 none "day" false "time"
        = (.ok (.inr (([⟨ "BTC" , "USD" ⟩, ⟨ "ETH" , "BTC" ⟩] :
            List CryptoSymbol).map (fun s => (to_string s, TW s)))), reqs) :=
  ⟨by decide, by decide,
   by intro s hs; fin_cases hs <;> rfl,
   no_merge_returns_ordered_mapping apiW _ 5 none "day" "time" TW
     (by decide) (by decide) (by intro s hs; fin_cases hs <;> rfl)⟩

/-- Claim C1: a non-empty collection fetched with merge=true and a non-empty
index column yields one single table whose columns are exactly the per-symbol
columns renamed with the "{symbolString}_" front marker, in input order, and
whose row index is the union of the symbols\x27 timestamps; each merged row is
the concatenation of the per-symbol rows present at that key, with the cells
of an absent symbol left null (absent bindings).  With 8 columns per indexed
per-symbol table and 2 symbols this gives exactly 16 columns (see the
witness). -/
theorem merge_combines_prefixed_tables (api : Api) (syms : List CryptoSymbol)
    (limit : Int) (exchange : Option String) (unit index : String)
    (T : CryptoSymbol → DF)
    (hne : syms ≠ []) (hidx : index ≠ "")
    (hnd : (syms.map to_string).Nodup)
    (hT : ∀ s ∈ syms, perSymbol api limit exchange unit index s = .ok (T s)) :
    ∃ df reqs,
      symbol_price_hist api (.inr syms) limit exchange unit true index
        = (.ok (.inl df), reqs)
      ∧ df.cols = (syms.map (fun s =>
          (T s).cols.map (fun c => to_string s ++ "_" ++ c))).flatten
      ∧ (∀ t, t ∈ idxKeys df ↔ ∃ s ∈ syms, t ∈ idxKeys (T s))
      ∧ (∀ t ∈ idxKeys df, dfGetRow df t
          = some ((syms.map (fun s =>
              (dfGetRow (rename_cols (T s) (to_string s)) t).getD [])).flatten)) := by
  rcases fetchLoop_ok_of_perSymbol api limit exchange unit true index T syms
    [] [] hT hnd (fun s _ => rfl) with ⟨reqs2, hloop⟩
  have hloop2 : fetchLoop api limit exchange unit true index syms [] []
      = (.ok (syms.map (fun s =>
          (to_string s, rename_cols (T s) (to_string s)))), reqs2) := by
    simpa using hloop
  cases syms with
  | nil => exact absurd rfl hne
  | cons s0 rest =>
    have hget0 : dictGet ((s0 :: rest).map (fun s =>
        (to_string s, rename_cols (T s) (to_string s)))) (to_string s0)
        = some (rename_cols (T s0) (to_string s0)) :=
      dictGet_map_of_mem _ (s0 :: rest) s0 hnd (List.mem_cons_self s0 rest)
    have hfold : mergeFold ((s0 :: rest).map (fun s =>
        (to_string s, rename_cols (T s) (to_string s)))) rest
        (rename_cols (T s0) (to_string s0))
        = .ok (List.foldl mergeOuter (rename_cols (T s0) (to_string s0))
            (rest.map (fun s => rename_cols (T s) (to_string s)))) :=
      mergeFold_ok _ _ rest _ (fun s hs =>
        dictGet_map_of_mem _ (s0 :: rest) s hnd (List.mem_cons_of_mem s0 hs))
    refine ⟨List.foldl mergeOuter (rename_cols (T s0) (to_string s0))
        (rest.map (fun s => rename_cols (T s) (to_string s))), reqs2,
        ?_, ?_, ?_, ?_⟩
    · unfold symbol_price_hist
      dsimp only
      rw [hloop2]
      show (match dictGet ((s0 :: rest).map (fun s =>
          (to_string s, rename_cols (T s) (to_string s)))) (to_string s0) with
        | none => (Except.error (PyError.keyError (to_string s0)), reqs2)
        | some df0 =>
          match mergeFold ((s0 :: rest).map (fun s =>
              (to_string s, rename_cols (T s) (to_string s)))) rest df0 with
          | Except.error e => (Except.error e, reqs2)
          | Except.ok dfRes => (Except.ok (Sum.inl dfRes), reqs2)) = _
      rw [hget0]
      dsimp only
      rw [hfold]
    · rw [foldl_mergeOuter_cols]
      simp only [List.map_map, rename_cols_cols, List.map_cons,
        List.flatten_cons]
      rfl
    · intro t
      rw [mem_idxKeys_foldl_mergeOuter]
      simp only [List.mem_cons, exists_eq_or_imp, idxKeys_rename_cols]
      constructor
      · rintro (h | ⟨d, hd, hkd⟩)
        · exact Or.inl h
        · rcases List.mem_map.mp hd with ⟨s, hs, rfl⟩
          rw [idxKeys_rename_cols] at hkd
          exact Or.inr ⟨s, hs, hkd⟩
      · rintro (h | ⟨s, hs, hkd⟩)
        · exact Or.inl h
        · exact Or.inr ⟨rename_cols (T s) (to_string s),
            List.mem_map.mpr ⟨s, hs, rfl⟩, by rw [idxKeys_rename_cols]; exact hkd⟩
    · intro t ht
      rw [dfGetRow_foldl_mergeOuter]
      rw [mem_idxKeys_foldl_mergeOuter] at ht
      rw [if_pos ht]
      simp only [List.map_map, List.map_cons, List.flatten_cons]
      rfl

/-- Witness for C1: two symbols, nine wire fields per record (so 8 columns
each after indexing on time), distinct timestamp sets: the merged table has
the 16 prefixed columns and the union of the timestamps. -/
theorem merge_combines_prefixed_tables_witness :
    (([⟨ "BTC" , "USD" ⟩, ⟨ "ETH" , "BTC" ⟩] : List CryptoSymbol) ≠ [])
    ∧ ( "time" : String) ≠ ""
    ∧ (([⟨ "BTC" , "USD" ⟩, ⟨ "ETH" , "BTC" ⟩] : List CryptoSymbol).map
        to_string).Nodup
    ∧ (∀ s ∈ ([⟨ "BTC" , "USD" ⟩, ⟨ "ETH" , "BTC" ⟩] : List CryptoSymbol),
        perSymbol apiW 5 none "day" "time" s = .ok (TW s))
    ∧ ∃ df reqs,
      symbol_price_hist apiW
          (.inr [⟨ "BTC" , "USD" ⟩, ⟨ "ETH" , "BTC" ⟩]) 5 none "day" true "time"
        = (.ok (.inl df), reqs)
      ∧ df.cols = (([⟨ "BTC" , "USD" ⟩, ⟨ "ETH" , "BTC" ⟩] :
            List CryptoSymbol).map (fun s =>
          (TW s).cols.map (fun c => to_string s ++ "_" ++ c))).flatten
      ∧ (∀ t, t ∈ idxKeys df ↔ ∃ s ∈ ([⟨ "BTC" , "USD" ⟩, ⟨ "ETH" , "BTC" ⟩] :
            List CryptoSymbol), t ∈ idxKeys (TW s))
      ∧ (∀ t ∈ idxKeys df, dfGetRow df t
          = some ((([⟨ "BTC" , "USD" ⟩, ⟨ "ETH" , "BTC" ⟩] :
              List CryptoSymbol).map (fun s =>
              (dfGetRow (rename_cols (TW s) (to_string s)) t).getD [])).flatten)) :=
  ⟨by decide, by decide, by decide,
   by intro s hs; fin_cases hs <;> rfl,
   merge_combines_prefixed_tables apiW _ 5 none "day" "time" TW
     (by decide) (by decide) (by decide)
     (by intro s hs; fin_cases hs <;> rfl)⟩

end CryptoR

